import Mathlib

/-!
Verification development for the go-compact-float repository: a shallow
embedding of the compact-float wire codec (compact-float.go) and of the
DFloat decimal value model (dfloat.go), together with theorems settling the
specification claims about them.  Machine integers are modelled as Nat/Int
with explicit wrapping where the Go code can overflow.
-/

namespace CompactFloat

/-- Wrap an integer into signed 32-bit two's-complement range, as Go int32
arithmetic does on overflow. -/
def wrap32 (x : Int) : Int := (x + 2 ^ 31) % 2 ^ 32 - 2 ^ 31

/-- Wrap an integer into signed 64-bit two's-complement range, as Go int64
arithmetic does on overflow. -/
def wrap64 (x : Int) : Int := (x + 2 ^ 63) % 2 ^ 64 - 2 ^ 63

/-- Go conversion `uint64(x)` of a signed value: two's-complement
reinterpretation into [0, 2^64). -/
def toUint64 (x : Int) : Nat := (x % 2 ^ 64).toNat

/-- Go conversion `int64(u)` of a uint64 value: two's-complement
reinterpretation of a value in [0, 2^64). -/
def ofUint64 (u : Nat) : Int := if u < 2 ^ 63 then (u : Int) else (u : Int) - 2 ^ 64

/-! The variable-length unsigned integer codec (github.com/kstenerud/go-uleb128)
is the external collaborator of the wire codec.  Modelled from the spec:
LEB128 groups of 7 value bits, low group first, continuation flag 0x80 on
every byte but the last, minimal length; decode reports the consumed byte
count and whether the buffer ended while a continuation flag was set. -/

/-- Modelled from the spec: LEB128 encoding of a natural number, with fuel
(the fuel `n + 1` used by `ulebEncode` always suffices, since the argument
at least halves every step). -/
def ulebEncodeAux : Nat → Nat → List Nat
  | 0, _ => []
  | fuel + 1, n => if n < 128 then [n] else (n % 128 + 128) :: ulebEncodeAux fuel (n / 128)

/-- Modelled from the spec: minimal LEB128 encoding of a natural number. -/
def ulebEncode (n : Nat) : List Nat := ulebEncodeAux (n + 1) n

/-- Modelled from the spec: LEB128 decode.  Returns the decoded magnitude, the
number of bytes consumed, and a completeness flag; on a truncated buffer it
consumes every byte and reports incomplete (the partial magnitude is the
value of the low groups read so far). -/
def ulebDecode : List Nat → Nat × Nat × Bool
  | [] => (0, 0, false)
  | b :: rest =>
    if b < 128 then (b, 1, true)
    else
      let r := ulebDecode rest
      ((b - 128) + 128 * r.1, r.2.1 + 1, r.2.2)

/-- Form tag of an arbitrary-precision decimal (apd.Decimal.Form). -/
inductive Form where
  | Finite
  | Infinite
  | NaN
  | NaNSignaling
deriving DecidableEq, Repr

/-- The arbitrary-precision decimal type (cockroachdb/apd Decimal) as used by
the codec: sign flag, signed 32-bit exponent, non-negative coefficient
magnitude, and a form tag. -/
structure Decimal where
  Negative : Bool
  Exponent : Int
  Coeff : Nat
  Form : Form
deriving DecidableEq, Repr

/-- apd.New(coeff, exponent): finite decimal with the coefficient sign moved
into the Negative flag. -/
def apdNew (coeff : Int) (exponent : Int) : Decimal :=
  { Negative := decide (coeff < 0), Exponent := exponent, Coeff := coeff.natAbs,
    Form := Form.Finite }

/-- apd Decimal.IsZero: a finite value with zero coefficient (of either
sign). -/
def Decimal.IsZero (d : Decimal) : Bool :=
  d.Form = Form.Finite && d.Coeff = 0

/-- encodeSpecialValue from compact-float.go: a single tag byte. -/
def encodeSpecialValue (value : Nat) : List Nat := [value]

/-- encodeExtendedSpecialValue from compact-float.go: 0x80 OR the tag,
followed by a zero byte. -/
def encodeExtendedSpecialValue (value : Nat) : List Nat := [0x80 ||| value, 0]

def encodeQuietNan : List Nat := encodeExtendedSpecialValue 0
def encodeSignalingNan : List Nat := encodeExtendedSpecialValue 1
def encodeInfinity : List Nat := encodeExtendedSpecialValue 2
def encodeNegativeInfinity : List Nat := encodeExtendedSpecialValue 3
def encodeZero : List Nat := encodeSpecialValue 2
def encodeNegativeZero : List Nat := encodeSpecialValue 3

/-- The exponent field packed by Encode for a normal value:
`uint64(exponent) << 2 | exponentSign << 1 | significandSign`, where the Go
int32 negation of the exponent and the uint64 conversion wrap. -/
def exponentField (exponent : Int) (negative : Bool) : Nat :=
  let mag := if exponent < 0 then wrap32 (-exponent) else exponent
  let exponentSign : Nat := if exponent < 0 then 1 else 0
  let significandSign : Nat := if negative then 1 else 0
  (toUint64 mag * 4 + exponentSign * 2 + significandSign) % 2 ^ 64

/-- Encode from compact-float.go: special values become fixed tag bytes,
normal values become two consecutive LEB128 fields (exponent field, then
coefficient magnitude).  The destination is modelled as unbounded, so this
returns the produced byte sequence. -/
def Encode (value : Decimal) : List Nat :=
  if value.IsZero then
    if value.Negative then encodeNegativeZero else encodeZero
  else
    match value.Form with
    | Form.Infinite => if value.Negative then encodeNegativeInfinity else encodeInfinity
    | Form.NaN => encodeQuietNan
    | Form.NaNSignaling => encodeSignalingNan
    | Form.Finite =>
      ulebEncode (exponentField value.Exponent value.Negative) ++ ulebEncode value.Coeff

/-- Decode error conditions: ErrorIncomplete, or the descriptive
exponent-too-big error. -/
inductive DecodeErr where
  | incomplete
  | exponentTooBig
deriving DecidableEq, Repr

/-- apd stores the exponent in a signed 32-bit int; Decode rejects encoded
exponent fields above this bound. -/
def maxEncodedExponent : Nat := 0x1ffffffff

/-- The generic two-varint branch of Decode (the code after the one- and
two-byte special-value fast paths).  Note the Go code only sets err on
an incomplete first field and keeps going; that err can reach the final
return only when the second field is also incomplete, which the error flow
below reproduces. -/
def decodeGeneric (src : List Nat) : Except DecodeErr (Decimal × Nat) :=
  let r1 := ulebDecode src
  let asUint := r1.1
  let firstIncomplete := r1.2.2 = false
  if asUint ≥ 2 ^ 64 then Except.error DecodeErr.exponentTooBig
  else if asUint > maxEncodedExponent then Except.error DecodeErr.exponentTooBig
  else
    let negativeFlag := asUint % 2 = 1
    let exponent0 : Int := (asUint / 4 : Nat)
    let exponent := if asUint / 2 % 2 = 1 then -exponent0 else exponent0
    let offset := r1.2.1
    let r2 := ulebDecode (src.drop offset)
    if r2.2.2 = false then Except.error DecodeErr.incomplete
    else if firstIncomplete then Except.error DecodeErr.incomplete
    else
      let coeffMag := r2.1
      let bytesDecoded := r2.2.1 + offset
      if coeffMag ≥ 2 ^ 64 then
        Except.ok ({ Negative := negativeFlag, Exponent := exponent, Coeff := coeffMag,
                     Form := Form.Finite }, bytesDecoded)
      else if coeffMag ≥ 2 ^ 63 then
        Except.ok ({ Negative := negativeFlag, Exponent := exponent, Coeff := coeffMag,
                     Form := Form.Finite }, bytesDecoded)
      else
        let coeff : Int := if negativeFlag then -(coeffMag : Int) else (coeffMag : Int)
        Except.ok (apdNew coeff exponent, bytesDecoded)

/-- Decode from compact-float.go: empty input is incomplete; a one-byte
buffer holding 2 or 3 is a signed zero; a two-byte buffer ending in 0 and
starting with 0x80..0x83 is a NaN or infinity; everything else takes the
generic two-varint branch. -/
def Decode (src : List Nat) : Except DecodeErr (Decimal × Nat) :=
  match src with
  | [] => Except.error DecodeErr.incomplete
  | [b] =>
    if b = 2 then Except.ok ({ Negative := false, Exponent := 0, Coeff := 0, Form := Form.Finite }, 1)
    else if b = 3 then Except.ok ({ Negative := true, Exponent := 0, Coeff := 0, Form := Form.Finite }, 1)
    else decodeGeneric src
  | [b0, b1] =>
    if b1 ≠ 0 then decodeGeneric src
    else if b0 = 0x80 then Except.ok ({ Negative := false, Exponent := 0, Coeff := 0, Form := Form.NaN }, 2)
    else if b0 = 0x81 then Except.ok ({ Negative := false, Exponent := 0, Coeff := 0, Form := Form.NaNSignaling }, 2)
    else if b0 = 0x82 then Except.ok ({ Negative := false, Exponent := 0, Coeff := 0, Form := Form.Infinite }, 2)
    else if b0 = 0x83 then Except.ok ({ Negative := true, Exponent := 0, Coeff := 0, Form := Form.Infinite }, 2)
    else decodeGeneric src
  | _ => decodeGeneric src

/-- Decidable equality for Except results, used to evaluate the codec on
concrete byte sequences. -/
instance {e a : Type} [DecidableEq e] [DecidableEq a] : DecidableEq (Except e a) := fun x y =>
  match x, y with
  | Except.ok v, Except.ok w =>
    if h : v = w then Decidable.isTrue (by rw [h]) else Decidable.isFalse (fun hh => by cases hh; exact h rfl)
  | Except.error v, Except.error w =>
    if h : v = w then Decidable.isTrue (by rw [h]) else Decidable.isFalse (fun hh => by cases hh; exact h rfl)
  | Except.ok _, Except.error _ => Decidable.isFalse (fun hh => by cases hh)
  | Except.error _, Except.ok _ => Decidable.isFalse (fun hh => by cases hh)

/-! The DFloat decimal value model (dfloat.go). -/

/-- The sentinel exponent marking a special value. -/
def ExpSpecial : Int := -0x80000000

def CoeffNegativeZero : Int := 0
def CoeffInfinity : Int := 1
def CoeffNegativeInfinity : Int := 5
def CoeffNan : Int := 2
def CoeffSignalingNan : Int := 6

/-- DFloat: decimal floating point value with a signed 32-bit exponent and a
signed 64-bit coefficient. -/
structure DFloat where
  Exponent : Int
  Coefficient : Int
deriving DecidableEq, Repr

def dfloatZero : DFloat := ⟨0, 0⟩
def dfloatNegativeZero : DFloat := ⟨ExpSpecial, 0⟩
def dfloatInfinity : DFloat := ⟨ExpSpecial, CoeffInfinity⟩
def dfloatNegativeInfinity : DFloat := ⟨ExpSpecial, CoeffNegativeInfinity⟩
def dfloatNaN : DFloat := ⟨ExpSpecial, CoeffNan⟩
def dfloatSignalingNaN : DFloat := ⟨ExpSpecial, CoeffSignalingNan⟩

/-- The trailing-zero elimination loop of DFloat.minimized, with fuel
(`natAbs` of the starting coefficient is always enough fuel).  The exponent
increment is Go int32 arithmetic, hence the wrap. -/
def minimizedLoop : Nat → Int → Int → Int × Int
  | 0, c, e => (c, e)
  | fuel + 1, c, e =>
    if c.tdiv 10 * 10 = c then minimizedLoop fuel (c.tdiv 10) (wrap32 (e + 1))
    else (c, e)

/-- DFloat.minimized from dfloat.go: specials pass through, a zero
coefficient forces exponent 0, otherwise trailing decimal zeros are divided
out while incrementing the exponent. -/
def DFloat.minimized (d : DFloat) : DFloat :=
  if d.Exponent = ExpSpecial then d
  else if d.Coefficient = 0 then ⟨0, d.Coefficient⟩
  else
    let p := minimizedLoop d.Coefficient.natAbs d.Coefficient d.Exponent
    ⟨p.2, p.1⟩

/-- DFloatValue from dfloat.go. -/
def DFloatValue (exponent : Int) (coefficient : Int) : DFloat :=
  DFloat.minimized ⟨exponent, coefficient⟩

/-- DFloatFromUInt from dfloat.go: values above int64 range lose their last
digit with half-to-even rounding. -/
def DFloatFromUInt (value : Nat) : DFloat :=
  if value ≤ 0x7fffffffffffffff then DFloatValue 0 (value : Int)
  else
    let remainder := value % 10
    let value := value / 10
    let value :=
      if remainder ≥ 5 then
        if remainder = 5 then (if value % 2 = 1 then value + 1 else value) else value + 1
      else value
    DFloatValue 1 (value : Int)

/-- DFloat.APD from dfloat.go: the five special singletons map to the
corresponding apd forms, everything else through apd.New. -/
def DFloat.APD (d : DFloat) : Decimal :=
  if d = dfloatNegativeZero then { Negative := true, Exponent := 0, Coeff := 0, Form := Form.Finite }
  else if d = dfloatInfinity then { Negative := false, Exponent := 0, Coeff := 0, Form := Form.Infinite }
  else if d = dfloatNegativeInfinity then { Negative := true, Exponent := 0, Coeff := 0, Form := Form.Infinite }
  else if d = dfloatNaN then { Negative := false, Exponent := 0, Coeff := 0, Form := Form.NaN }
  else if d = dfloatSignalingNaN then { Negative := false, Exponent := 0, Coeff := 0, Form := Form.NaNSignaling }
  else apdNew d.Coefficient d.Exponent

/-- The power-of-ten table used by Int()/Uint() (exponentMultipliers). -/
def exponentMultipliers : List Nat :=
  [1, 10, 100, 1000, 10000, 100000, 1000000, 10000000, 100000000,
   1000000000, 10000000000, 100000000000, 1000000000000, 10000000000000,
   100000000000000, 1000000000000000, 10000000000000000, 100000000000000000,
   1000000000000000000,
   10000000000000000000]

/-- Failure conditions of Int()/Uint(): not a whole number, exponent too big
for the table, or value too big for the target width. -/
inductive IntErr where
  | notWhole
  | expTooBig
  | valueTooBig
deriving DecidableEq, Repr

/-- DFloat.Int from dfloat.go: scales the coefficient by the table power of
ten in wrapping int64 arithmetic and detects overflow with a sign check and
a division check. -/
def DFloat.Int (d : DFloat) : Except IntErr ℤ :=
  if d.Exponent < 0 then Except.error IntErr.notWhole
  else if d.Exponent ≥ (exponentMultipliers.length : ℤ) - 1 then Except.error IntErr.expTooBig
  else
    let expMult : ℤ := ((exponentMultipliers.get? d.Exponent.toNat).getD 0 : Nat)
    let result := wrap64 (d.Coefficient * expMult)
    if result < 0 ∨ result.tdiv expMult ≠ d.Coefficient then Except.error IntErr.valueTooBig
    else Except.ok result

/-- DFloat.Uint from dfloat.go: scales `uint64(coefficient)` by the table
power of ten in wrapping uint64 arithmetic and detects overflow with a
division check only. -/
def DFloat.Uint (d : DFloat) : Except IntErr Nat :=
  if d.Exponent < 0 then Except.error IntErr.notWhole
  else if d.Exponent ≥ (exponentMultipliers.length : ℤ) then Except.error IntErr.expTooBig
  else
    let expMult : Nat := (exponentMultipliers.get? d.Exponent.toNat).getD 0
    let result := toUint64 d.Coefficient * expMult % 2 ^ 64
    if result / expMult ≠ toUint64 d.Coefficient then Except.error IntErr.valueTooBig
    else Except.ok result

/-! The string parser decodeFromString (dfloat.go).  Go slice indexing past
the end and other runtime faults are modelled by an explicit outcome, so the
embedding records exactly where the source can abort instead of returning. -/

/-- Outcome of a Go function returning (value, err): `ok` when err is nil,
`goError` when a non-nil error value is returned, `runtimePanic` when the
function aborts with a runtime fault (index out of range) instead of
returning. -/
inductive GoResult (α : Type) where
  | ok (val : α)
  | goError
  | runtimePanic
deriving DecidableEq, Repr

/-- The digit-count bound table digitsMax from dfloat.go (20 entries, up to
19 nines). -/
def digitsMax : List Nat :=
  [0, 9, 99, 999, 9999, 99999, 999999, 9999999, 99999999, 999999999,
   9999999999, 99999999999, 999999999999, 9999999999999, 99999999999999,
   999999999999999, 9999999999999999, 99999999999999999, 999999999999999999,
   9999999999999999999]

/-- The local variables mutated by the parsing closures of
decodeFromString. -/
structure ParseState where
  exponent : Int
  significand : Nat
  rounded : Int
  firstRounded : Bool
  cutoffDigitCount : Nat
  fractionalDigitCount : Nat
deriving DecidableEq, Repr

def initialParseState : ParseState :=
  { exponent := 0, significand := 0, rounded := 0, firstRounded := true,
    cutoffDigitCount := 0, fractionalDigitCount := 0 }

/-- The digit loop of the decodeExponent closure: accumulate decimal digits
with the 0x7fffffff cap check, then apply the exponent sign. -/
def decodeExponentLoop (exponentSign : Int) (s : ParseState) : List Char → GoResult ParseState
  | [] => GoResult.ok { s with exponent := s.exponent * exponentSign }
  | ch :: rest =>
    if ch < '0' ∨ '9' < ch then GoResult.goError
    else
      let e := s.exponent * 10 + ((ch.toNat - '0'.toNat : Nat) : Int)
      if e > 0x7fffffff then GoResult.goError
      else decodeExponentLoop exponentSign { s with exponent := e } rest

/-- The decodeExponent closure of decodeFromString.  Reading the sign looks
at str[0] unconditionally, so an empty exponent part is a runtime fault in
the source. -/
def decodeExponent (s : ParseState) : List Char → GoResult ParseState
  | [] => GoResult.runtimePanic
  | c :: rest =>
    if c = '-' then decodeExponentLoop (-1) s rest
    else if c = '+' then decodeExponentLoop 1 s rest
    else decodeExponentLoop 1 s (c :: rest)

/-- The decodeRoundedFractional closure: digits past the significand cap
only feed the rounding accumulator. -/
def decodeRoundedFractional (s : ParseState) : List Char → GoResult ParseState
  | [] => GoResult.ok s
  | ch :: rest =>
    if ch = 'e' ∨ ch = 'E' then decodeExponent s rest
    else if ch < '0' ∨ '9' < ch then GoResult.goError
    else
      let s :=
        if s.firstRounded ∨ s.rounded = 5 then
          { s with rounded := s.rounded + ((ch.toNat - '0'.toNat : Nat) : Int),
                   firstRounded := false }
        else s
      decodeRoundedFractional s rest

/-- The decodeFractional closure: fractional digits accumulate in uint64
arithmetic until the significand cap, then hand the current character on to
the rounding loop. -/
def decodeFractional (significandMax : Nat) (s : ParseState) : List Char → GoResult ParseState
  | [] => GoResult.ok s
  | ch :: rest =>
    if ch = 'e' ∨ ch = 'E' then decodeExponent s rest
    else if ch < '0' ∨ '9' < ch then GoResult.goError
    else
      let next := (s.significand * 10 + (ch.toNat - '0'.toNat)) % 2 ^ 64
      if next > significandMax then decodeRoundedFractional s (ch :: rest)
      else
        decodeFractional significandMax
          { s with significand := next,
                   fractionalDigitCount := s.fractionalDigitCount + 1 } rest

/-- The decodeRounded closure: integral digits past the significand cap feed
the rounding accumulator and count toward the exponent correction. -/
def decodeRounded (s : ParseState) : List Char → GoResult ParseState
  | [] => GoResult.ok s
  | ch :: rest =>
    if ch = '.' then decodeRoundedFractional s rest
    else if ch = 'e' ∨ ch = 'E' then decodeExponent s rest
    else if ch < '0' ∨ '9' < ch then GoResult.goError
    else
      let s :=
        if s.firstRounded ∨ s.rounded = 5 then
          { s with rounded := s.rounded + ((ch.toNat - '0'.toNat : Nat) : Int),
                   firstRounded := false,
                   cutoffDigitCount := s.cutoffDigitCount + 1 }
        else { s with cutoffDigitCount := s.cutoffDigitCount + 1 }
      decodeRounded s rest

/-- The decodeSignificand closure: integral digits accumulate in uint64
arithmetic until the significand cap, then hand the current character on to
decodeRounded. -/
def decodeSignificand (significandMax : Nat) (s : ParseState) : List Char → GoResult ParseState
  | [] => GoResult.ok s
  | ch :: rest =>
    if ch = '.' then decodeFractional significandMax s rest
    else if ch = 'e' ∨ ch = 'E' then decodeExponent s rest
    else if ch < '0' ∨ '9' < ch then GoResult.goError
    else
      let next := (s.significand * 10 + (ch.toNat - '0'.toNat)) % 2 ^ 64
      if next > significandMax then decodeRounded s (ch :: rest)
      else decodeSignificand significandMax { s with significand := next } rest

/-- strings.ToLower restricted to ASCII, which covers every recognized
special-value keyword. -/
def toLowerChar (c : Char) : Char :=
  if 'A' ≤ c ∧ c ≤ 'Z' then Char.ofNat (c.toNat + 32) else c

/-- Go `int64(significand)` reinterpretation used when the parsed uint64
significand is moved into the signed coefficient. -/
def significandToInt64 (u : Nat) : Int := ofUint64 (u % 2 ^ 64)

/-- The tail of decodeFromString after the digit scan: half-to-even
rounding carry, exponent correction, negative-zero early return, and the
minimized result assembly with Go int32/int64 casts.  `pendingErr` is the
stale error recorded by the keyword switch's default case. -/
def assembleResult (significandSign : Int) (pendingErr : Bool) :
    GoResult ParseState → GoResult DFloat
  | GoResult.ok s =>
    let significand :=
      if s.rounded > 5 ∨ (s.rounded = 5 ∧ s.significand % 2 = 1) then s.significand + 1
      else s.significand
    let exponent := s.exponent + (s.cutoffDigitCount : Int) - (s.fractionalDigitCount : Int)
    if significand = 0 ∧ significandSign < 0 then GoResult.ok dfloatNegativeZero
    else if pendingErr then GoResult.goError
    else
      GoResult.ok
        (DFloat.minimized
          { Exponent := wrap32 exponent,
            Coefficient := wrap64 (significandToInt64 significand * significandSign) })
  | GoResult.goError => GoResult.goError
  | GoResult.runtimePanic => GoResult.runtimePanic

/-- decodeFromString from dfloat.go.  The input is the rune sequence of the
Go string; `significantDigits ≤ 0` or above 19 means no rounding cap.  After
stripping a leading minus sign the source reads value[0] without a length
check, and an empty exponent part also reads str[0] unchecked; both are
runtime faults (`runtimePanic`).  The keyword switch's default case only
records an error and falls through to the numeric scan, whose stale error is
returned at the end unless the negative-zero early return fires first. -/
def decodeFromString (value : List Char) (significantDigits : Int) : GoResult DFloat :=
  match value with
  | [] => GoResult.ok dfloatZero
  | _ :: _ =>
    let significandMaxDigits : Int := (digitsMax.length : Int) - 1
    let significandMax : Nat :=
      if significantDigits ≤ 0 ∨ significantDigits > significandMaxDigits then 0x7fffffffffffffff
      else (digitsMax.get? significantDigits.toNat).getD 0
    let significandSign : Int := if value.head? = some '-' then -1 else 1
    let value := if value.head? = some '-' then value.tail else value
    match value with
    | [] => GoResult.runtimePanic
    | c0 :: _ =>
      if '9' < c0 then
        let lowered := value.map toLowerChar
        if lowered = "inf".toList ∨ lowered = "infinity".toList then
          GoResult.ok (if significandSign < 0 then dfloatNegativeInfinity else dfloatInfinity)
        else if lowered = "nan".toList then
          if significandSign < 0 then GoResult.goError else GoResult.ok dfloatNaN
        else if lowered = "snan".toList then
          if significandSign < 0 then GoResult.goError else GoResult.ok dfloatSignalingNaN
        else
          assembleResult significandSign true (decodeSignificand significandMax initialParseState value)
      else
        assembleResult significandSign false (decodeSignificand significandMax initialParseState value)

/-- DFloatFromString from dfloat.go. -/
def DFloatFromString (str : String) : GoResult DFloat :=
  decodeFromString str.toList 0

/-! The binary float64 bridge (dfloat.go).  float64 values are modelled by
their IEEE-754 bit patterns. -/

/-- quietBit from dfloat.go: 1 << 50. -/
def quietBit : Nat := 2 ^ 50

/-- Go math.NaN(): Float64frombits(0x7FF8000000000001). -/
def goNaNBits : Nat := 0x7FF8000000000001

/-- The bit pattern is an IEEE-754 double-precision NaN: exponent field all
ones and a nonzero mantissa. -/
def float64IsNaN (bits : Nat) : Bool :=
  bits / 2 ^ 52 % 2 ^ 11 = 0x7ff && bits % 2 ^ 52 ≠ 0

/-- The special-value dispatch at the head of DFloatFromFloat64, as a
function of the argument's bit pattern: signed zeros, signed infinities, and
NaNs classified by quietBit map to the DFloat singletons; a finite nonzero
value (result `none`) continues into the strconv/decodeFromString path,
which is outside this bit-level model.  The `-0.0` comparison in the source
is float equality, which only +0 (already handled) and -0 satisfy. -/
def DFloatFromFloat64Special (bits : Nat) : Option DFloat :=
  if bits = 0 then some dfloatZero
  else if bits = 0x8000000000000000 then some dfloatNegativeZero
  else if bits = 0x7FF0000000000000 then some dfloatInfinity
  else if bits = 0xFFF0000000000000 then some dfloatNegativeInfinity
  else if float64IsNaN bits then
    if bits &&& quietBit ≠ 0 then some dfloatNaN else some dfloatSignalingNaN
  else none

/-- The special-value branch of DFloat.Float() as a bit pattern: quiet NaN
sets quietBit on math.NaN()'s bits, signaling NaN clears it; a normal value
(result `none`) goes through the decimal-string round trip, outside this
bit-level model. -/
def DFloat.FloatBits (d : DFloat) : Option Nat :=
  if d = dfloatZero then some 0
  else if d = dfloatNegativeZero then some 0x8000000000000000
  else if d = dfloatInfinity then some 0x7FF0000000000000
  else if d = dfloatNegativeInfinity then some 0xFFF0000000000000
  else if d = dfloatNaN then some (goNaNBits ||| quietBit)
  else if d = dfloatSignalingNaN then some (goNaNBits &&& (2 ^ 64 - 1 - quietBit))
  else none

/-! Well-formedness of DFloat values: the documented exponent and coefficient
ranges, the five recognized special tags under the sentinel exponent, and
minimality of normal values (spec section 3). -/

/-- A DFloat is well formed when its fields are in int32/int64 range, a
special value carries one of the five recognized tags, and a normal value is
minimized (coefficient not divisible by 10, or exactly zero with exponent
zero). -/
def DFloat.wellFormed (d : DFloat) : Prop :=
  -2 ^ 31 ≤ d.Exponent ∧ d.Exponent < 2 ^ 31 ∧
  -2 ^ 63 ≤ d.Coefficient ∧ d.Coefficient < 2 ^ 63 ∧
  (d.Exponent = ExpSpecial →
    d.Coefficient = 0 ∨ d.Coefficient = 1 ∨ d.Coefficient = 2 ∨
    d.Coefficient = 5 ∨ d.Coefficient = 6) ∧
  (d.Exponent ≠ ExpSpecial →
    ¬ (10 : ℤ) ∣ d.Coefficient ∨ (d.Coefficient = 0 ∧ d.Exponent = 0))

instance (d : DFloat) : Decidable d.wellFormed := by
  unfold DFloat.wellFormed; infer_instance

/-! Arithmetic facts about the wrapping helpers. -/

theorem wrap32_eq_self {x : Int} (h1 : -2 ^ 31 ≤ x) (h2 : x < 2 ^ 31) : wrap32 x = x := by
  unfold wrap32; omega

theorem toUint64_eq_natAbs {x : Int} (h1 : 0 ≤ x) (h2 : x < 2 ^ 64) :
    toUint64 x = x.natAbs := by
  unfold toUint64; omega

/-! Facts about the LEB128 model. -/

theorem ulebEncodeAux_irrel (f : Nat) : ∀ g n, n < f → n < g →
    ulebEncodeAux f n = ulebEncodeAux g n := by
  induction f with
  | zero => intro g n h _; omega
  | succ f ih =>
    intro g n hf hg
    match g, hg with
    | g + 1, _ =>
      show ulebEncodeAux (f + 1) n = ulebEncodeAux (g + 1) n
      rw [ulebEncodeAux, ulebEncodeAux]
      by_cases h : n < 128
      · simp [h]
      · simp only [if_neg h]
        have hlt : n / 128 < n := Nat.div_lt_self (by omega) (by omega)
        rw [ih (g) (n / 128) (by omega) (by omega)]

theorem ulebEncode_eq (n : Nat) :
    ulebEncode n = if n < 128 then [n] else (n % 128 + 128) :: ulebEncode (n / 128) := by
  unfold ulebEncode
  rw [ulebEncodeAux]
  by_cases h : n < 128
  · simp [h]
  · simp only [if_neg h]
    have hlt : n / 128 < n := Nat.div_lt_self (by omega) (by omega)
    rw [ulebEncodeAux_irrel n (n / 128 + 1) (n / 128) (by omega) (by omega)]

theorem ulebEncode_length_pos (n : Nat) : 0 < (ulebEncode n).length := by
  rw [ulebEncode_eq]
  by_cases h : n < 128 <;> simp [h]

theorem ulebDecode_encode (n : Nat) : ∀ rest : List Nat,
    ulebDecode (ulebEncode n ++ rest) = (n, (ulebEncode n).length, true) := by
  induction n using Nat.strong_induction_on with
  | _ n ih =>
    intro rest
    rw [ulebEncode_eq]
    by_cases h : n < 128
    · simp [h, ulebDecode]
    · have hlt : n / 128 < n := Nat.div_lt_self (by omega) (by omega)
      simp only [if_neg h, List.cons_append, ulebDecode, List.length_cons]
      have hb : ¬ n % 128 + 128 < 128 := by omega
      simp only [if_neg hb, ih (n / 128) hlt rest]
      have heq : n % 128 + 128 - 128 + 128 * (n / 128) = n := by omega
      rw [heq]

theorem ulebEncode_take_all_cont (n : Nat) : ∀ k, k < (ulebEncode n).length →
    ∀ b ∈ (ulebEncode n).take k, 128 ≤ b := by
  induction n using Nat.strong_induction_on with
  | _ n ih =>
    intro k hk b hb
    rw [ulebEncode_eq] at hk hb
    by_cases h : n < 128
    · simp [h] at hk
      have hk0 : k = 0 := by omega
      subst hk0
      simp [h] at hb
    · have hlt : n / 128 < n := Nat.div_lt_self (by omega) (by omega)
      simp only [if_neg h, List.length_cons] at hk
      match k, hk with
      | 0, _ => simp [if_neg h] at hb
      | k + 1, hk =>
        simp only [if_neg h, List.take_succ_cons, List.mem_cons] at hb
        rcases hb with hb | hb
        · omega
        · exact ih (n / 128) hlt k (by omega) b hb

theorem ulebDecode_take (n : Nat) : ∀ k, k < (ulebEncode n).length →
    ∃ v ≤ n, ulebDecode ((ulebEncode n).take k) = (v, k, false) := by
  induction n using Nat.strong_induction_on with
  | _ n ih =>
    intro k hk
    rw [ulebEncode_eq] at hk ⊢
    by_cases h : n < 128
    · simp [h] at hk
      subst hk
      exact ⟨0, by omega, rfl⟩
    · have hlt : n / 128 < n := Nat.div_lt_self (by omega) (by omega)
      simp only [if_neg h, List.length_cons] at hk
      match k, hk with
      | 0, _ => exact ⟨0, by omega, rfl⟩
      | k + 1, hk =>
        obtain ⟨v, hv, hdec⟩ := ih (n / 128) hlt k (by omega)
        refine ⟨n % 128 + 128 * v, by omega, ?_⟩
        simp only [if_neg h, List.take_succ_cons, ulebDecode]
        have hb : ¬ n % 128 + 128 < 128 := by omega
        simp [hb, hdec]

/-- Consuming the first LEB128 field leaves exactly the remainder of the
buffer. -/
theorem drop_length_append (l rest : List Nat) : (l ++ rest).drop l.length = rest := by
  simp

/-! Facts about the exponent field packing. -/

theorem exponentField_eq (e : Int) (neg : Bool) (h1 : -2 ^ 31 < e) (h2 : e < 2 ^ 31) :
    exponentField e neg
      = 4 * e.natAbs + (if e < 0 then 2 else 0) + (if neg then 1 else 0) := by
  unfold exponentField
  by_cases he : e < 0
  · have hw : wrap32 (-e) = -e := wrap32_eq_self (by omega) (by omega)
    have ht : toUint64 (-e) = e.natAbs := by
      rw [toUint64_eq_natAbs (by omega) (by omega)]; omega
    simp only [if_pos he, hw, ht]
    rw [Nat.mod_eq_of_lt]
    · cases neg <;> simp <;> omega
    · cases neg <;> simp <;> omega
  · have ht : toUint64 e = e.natAbs := toUint64_eq_natAbs (by omega) (by omega)
    simp only [if_neg he, ht]
    rw [Nat.mod_eq_of_lt]
    · cases neg <;> simp <;> omega
    · cases neg <;> simp <;> omega

theorem exponentField_le (e : Int) (neg : Bool) (h1 : -2 ^ 31 < e) (h2 : e < 2 ^ 31) :
    exponentField e neg ≤ maxEncodedExponent := by
  rw [exponentField_eq e neg h1 h2]
  unfold maxEncodedExponent
  have : e.natAbs < 2 ^ 31 := by omega
  cases neg <;> by_cases he : e < 0 <;> simp [he] <;> omega

theorem exponentField_ne_2 (e : Int) (neg : Bool) (h1 : -2 ^ 31 < e) (h2 : e < 2 ^ 31) :
    exponentField e neg ≠ 2 ∧ exponentField e neg ≠ 3 := by
  rw [exponentField_eq e neg h1 h2]
  by_cases he : e < 0
  · have : 1 ≤ e.natAbs := by omega
    cases neg <;> simp [he] <;> omega
  · cases neg <;> simp [he] <;> omega

theorem ulebEncode_small {n : Nat} (h : n < 128) : ulebEncode n = [n] := by
  rw [ulebEncode_eq, if_pos h]

theorem ulebEncode_large {n : Nat} (h : ¬ n < 128) :
    ulebEncode n = (n % 128 + 128) :: ulebEncode (n / 128) := by
  rw [ulebEncode_eq, if_neg h]

theorem ulebEncode_length_two {n : Nat} (h : ¬ n < 128) :
    2 ≤ (ulebEncode n).length := by
  rw [ulebEncode_large h]
  have := ulebEncode_length_pos (n / 128)
  simp
  omega

/-- A buffer of three or more bytes always takes the generic two-varint
branch of Decode. -/
theorem Decode_eq_generic_of_long (src : List Nat) (h : 3 ≤ src.length) :
    Decode src = decodeGeneric src := by
  match src with
  | [] => simp at h
  | [b] => simp at h
  | [b0, b1] => simp at h
  | b0 :: b1 :: b2 :: rest => rfl

/-- A two-byte buffer whose second byte is nonzero takes the generic
branch. -/
theorem Decode_pair_ne (b0 b1 : Nat) (h : b1 ≠ 0) :
    Decode [b0, b1] = decodeGeneric [b0, b1] := by
  simp [Decode, h]

/-- A one-byte buffer other than the signed-zero tags takes the generic
branch. -/
theorem Decode_single_ne (b : Nat) (h2 : b ≠ 2) (h3 : b ≠ 3) :
    Decode [b] = decodeGeneric [b] := by
  simp [Decode, h2, h3]

/-- Decoding the concatenation of two encoded LEB128 fields (with an
arbitrary tail) through the generic branch recovers the exponent field and
the coefficient magnitude and consumes exactly the two fields. -/
theorem decodeGeneric_encodes (fld cf : Nat) (hfld : fld ≤ maxEncodedExponent)
    (rest : List Nat) :
    decodeGeneric (ulebEncode fld ++ (ulebEncode cf ++ rest)) =
      Except.ok
        (if 2 ^ 63 ≤ cf then
           ({ Negative := decide (fld % 2 = 1),
              Exponent := if fld / 2 % 2 = 1 then -((fld / 4 : Nat) : Int) else ((fld / 4 : Nat) : Int),
              Coeff := cf, Form := Form.Finite } : Decimal)
         else
           apdNew (if fld % 2 = 1 then -(cf : Int) else (cf : Int))
             (if fld / 2 % 2 = 1 then -((fld / 4 : Nat) : Int) else ((fld / 4 : Nat) : Int)),
         (ulebEncode cf).length + (ulebEncode fld).length) := by
  have hfld64 : fld < 2 ^ 64 := by
    unfold maxEncodedExponent at hfld; omega
  unfold decodeGeneric
  rw [ulebDecode_encode fld]
  simp only [List.drop_append_of_le_length (Nat.le_refl _), List.drop_length, List.nil_append]
  rw [ulebDecode_encode cf]
  have h1 : ¬ fld ≥ 2 ^ 64 := by omega
  have h2 : ¬ fld > maxEncodedExponent := Nat.not_lt.mpr hfld
  rw [if_neg h1, if_neg h2]
  have h3 : ¬ (true = false) := by simp
  rw [if_neg h3, if_neg h3]
  split_ifs <;> first | rfl | omega

theorem Encode_normal (d : Decimal) (hf : d.Form = Form.Finite) (hc : d.Coeff ≠ 0) :
    Encode d = ulebEncode (exponentField d.Exponent d.Negative) ++ ulebEncode d.Coeff := by
  unfold Encode Decimal.IsZero
  rw [hf]
  simp [hc]

theorem exponentField_mod2 (e : Int) (neg : Bool) (h1 : -2 ^ 31 < e) (h2 : e < 2 ^ 31) :
    exponentField e neg % 2 = if neg then 1 else 0 := by
  rw [exponentField_eq e neg h1 h2]
  cases neg <;> by_cases he : e < 0 <;> simp [he] <;> omega

theorem exponentField_div2 (e : Int) (neg : Bool) (h1 : -2 ^ 31 < e) (h2 : e < 2 ^ 31) :
    exponentField e neg / 2 % 2 = if e < 0 then 1 else 0 := by
  rw [exponentField_eq e neg h1 h2]
  cases neg <;> by_cases he : e < 0 <;> simp [he] <;> omega

theorem exponentField_div4 (e : Int) (neg : Bool) (h1 : -2 ^ 31 < e) (h2 : e < 2 ^ 31) :
    exponentField e neg / 4 = e.natAbs := by
  rw [exponentField_eq e neg h1 h2]
  cases neg <;> by_cases he : e < 0 <;> simp [he] <;> omega

theorem DFloat.APD_normal (v : DFloat) (hs : v.Exponent ≠ ExpSpecial) :
    v.APD = apdNew v.Coefficient v.Exponent := by
  unfold DFloat.APD
  have h1 : v ≠ dfloatNegativeZero := fun h => hs (by rw [h]; rfl)
  have h2 : v ≠ dfloatInfinity := fun h => hs (by rw [h]; rfl)
  have h3 : v ≠ dfloatNegativeInfinity := fun h => hs (by rw [h]; rfl)
  have h4 : v ≠ dfloatNaN := fun h => hs (by rw [h]; rfl)
  have h5 : v ≠ dfloatSignalingNaN := fun h => hs (by rw [h]; rfl)
  simp [h1, h2, h3, h4, h5]

theorem ExpSpecial_eq : ExpSpecial = -2 ^ 31 := by norm_num [ExpSpecial]

theorem decodedValue_eq (fld : Nat) (c e : Int)
    (hm2 : fld % 2 = if c < 0 then 1 else 0)
    (hd2 : fld / 2 % 2 = if e < 0 then 1 else 0)
    (hd4 : fld / 4 = e.natAbs)
    (hc1 : -2 ^ 63 ≤ c) (hc2 : c < 2 ^ 63) :
    (if 2 ^ 63 ≤ c.natAbs then
       ({ Negative := decide (fld % 2 = 1),
          Exponent := if fld / 2 % 2 = 1 then -((fld / 4 : Nat) : Int) else ((fld / 4 : Nat) : Int),
          Coeff := c.natAbs, Form := Form.Finite } : Decimal)
     else
       apdNew (if fld % 2 = 1 then -((c.natAbs : Nat) : Int) else ((c.natAbs : Nat) : Int))
         (if fld / 2 % 2 = 1 then -((fld / 4 : Nat) : Int) else ((fld / 4 : Nat) : Int)))
    = apdNew c e := by
  have hexp : (if fld / 2 % 2 = 1 then -((fld / 4 : Nat) : Int) else ((fld / 4 : Nat) : Int)) = e := by
    rw [hd4]
    by_cases hee : e < 0
    · rw [if_pos (by rw [hd2]; simp [hee])]
      omega
    · rw [if_neg (by rw [hd2]; simp [hee])]
      omega
  rw [hexp]
  by_cases h63 : 2 ^ 63 ≤ c.natAbs
  · rw [if_pos h63]
    have hcm : c = -(2 ^ 63) := by omega
    subst hcm
    have hfm : fld % 2 = 1 := by rw [hm2]; norm_num
    simp [apdNew, hfm]
  · rw [if_neg h63]
    have hco : (if fld % 2 = 1 then -((c.natAbs : Nat) : Int) else ((c.natAbs : Nat) : Int)) = c := by
      by_cases hcc : c < 0
      · rw [if_pos (by rw [hm2]; simp [hcc])]
        omega
      · rw [if_neg (by rw [hm2]; simp [hcc])]
        omega
    rw [hco]

/-- C1: for every representable (well-formed) DFloat value v, encoding v
with the wire codec (Encode of its apd form, the codec's input type) and
then decoding the produced bytes yields a decoded value equal to v (equal to
v's apd form), and the number of bytes the decoder reports as consumed
equals the number of bytes the encoder produced. -/
theorem C1_round_trip (v : DFloat) (h : v.wellFormed) :
    Decode (Encode v.APD) = Except.ok (v.APD, (Encode v.APD).length) := by
  obtain ⟨he1, he2, hc1, hc2, hspec, hnorm⟩ := h
  by_cases hs : v.Exponent = ExpSpecial
  · obtain ⟨ve, vc⟩ := v
    simp only at hs hspec
    subst hs
    rcases hspec rfl with h0 | h0 | h0 | h0 | h0 <;> subst h0 <;> decide
  · have hAPD := DFloat.APD_normal v hs
    by_cases hc0 : v.Coefficient = 0
    · have he0 : v.Exponent = 0 := by
        rcases hnorm hs with hnd | ⟨_, he0⟩
        · exact absurd ⟨0, by omega⟩ hnd
        · exact he0
      obtain ⟨ve, vc⟩ := v
      simp only at hc0 he0
      subst hc0; subst he0; decide
    · obtain ⟨ve, vc⟩ := v
      simp only at hs hc0 hAPD he1 he2 hc1 hc2
      have hb1 : -2 ^ 31 < ve := by rw [ExpSpecial_eq] at hs; omega
      have hENC : Encode (DFloat.APD ⟨ve, vc⟩) =
          ulebEncode (exponentField ve (decide (vc < 0))) ++ ulebEncode vc.natAbs := by
        rw [hAPD]
        refine Encode_normal _ rfl ?_
        simpa [apdNew] using hc0
      have hcf0 : vc.natAbs ≠ 0 := by simpa using hc0
      have hfld_le := exponentField_le ve (decide (vc < 0)) hb1 he2
      rw [hENC, hAPD]
      have hgen : Decode (ulebEncode (exponentField ve (decide (vc < 0))) ++ ulebEncode vc.natAbs)
          = decodeGeneric (ulebEncode (exponentField ve (decide (vc < 0))) ++ ulebEncode vc.natAbs) := by
        by_cases hf : exponentField ve (decide (vc < 0)) < 128
        · by_cases hcfs : vc.natAbs < 128
          · rw [ulebEncode_small hf, ulebEncode_small hcfs]
            exact Decode_pair_ne _ _ hcf0
          · apply Decode_eq_generic_of_long
            rw [ulebEncode_small hf]
            have := ulebEncode_length_two hcfs
            simp
            omega
        · apply Decode_eq_generic_of_long
          have := ulebEncode_length_two hf
          have := ulebEncode_length_pos vc.natAbs
          simp
          omega
      rw [hgen]
      have hdec := decodeGeneric_encodes (exponentField ve (decide (vc < 0))) vc.natAbs hfld_le []
      rw [List.append_nil] at hdec
      rw [hdec]
      have hm2 := exponentField_mod2 ve (decide (vc < 0)) hb1 he2
      have hd2 := exponentField_div2 ve (decide (vc < 0)) hb1 he2
      have hd4 := exponentField_div4 ve (decide (vc < 0)) hb1 he2
      simp only [Except.ok.injEq, Prod.mk.injEq, List.length_append]
      exact ⟨decodedValue_eq _ vc ve (by simpa using hm2) hd2 hd4 hc1 hc2, by omega⟩

/-- Witness for C1 at the DFloat 1.5 (coefficient 15, exponent -1). -/
theorem C1_round_trip_witness :
    DFloat.wellFormed ⟨-1, 15⟩ ∧
      Decode (Encode (DFloat.APD ⟨-1, 15⟩)) =
        Except.ok (DFloat.APD ⟨-1, 15⟩, (Encode (DFloat.APD ⟨-1, 15⟩)).length) :=
  ⟨by decide, C1_round_trip ⟨-1, 15⟩ (by decide)⟩


/-- C2: encoding each of the six special values produces exactly the fixed
byte sequences 02, 03, 82 00, 83 00, 80 00, 81 00, decoding each sequence
reproduces the corresponding value, and quiet and signaling NaN stay
distinguishable through a full encode/decode cycle. -/
theorem C2_special_value_closure :
    Encode (DFloat.APD dfloatZero) = [0x02] ∧
    Encode (DFloat.APD dfloatNegativeZero) = [0x03] ∧
    Encode (DFloat.APD dfloatInfinity) = [0x82, 0x00] ∧
    Encode (DFloat.APD dfloatNegativeInfinity) = [0x83, 0x00] ∧
    Encode (DFloat.APD dfloatNaN) = [0x80, 0x00] ∧
    Encode (DFloat.APD dfloatSignalingNaN) = [0x81, 0x00] ∧
    Decode [0x02] = Except.ok (DFloat.APD dfloatZero, 1) ∧
    Decode [0x03] = Except.ok (DFloat.APD dfloatNegativeZero, 1) ∧
    Decode [0x82, 0x00] = Except.ok (DFloat.APD dfloatInfinity, 2) ∧
    Decode [0x83, 0x00] = Except.ok (DFloat.APD dfloatNegativeInfinity, 2) ∧
    Decode [0x80, 0x00] = Except.ok (DFloat.APD dfloatNaN, 2) ∧
    Decode [0x81, 0x00] = Except.ok (DFloat.APD dfloatSignalingNaN, 2) ∧
    Decode (Encode (DFloat.APD dfloatNaN)) ≠ Decode (Encode (DFloat.APD dfloatSignalingNaN)) := by
  decide

/-- C10: Decode also accepts the generic two-varint framing for positive
zero: the byte sequence 00 00 decodes to positive zero consuming 2 bytes,
although Encode of positive zero emits the single byte 02 — so the same
value has more than one accepted byte-level encoding. -/
theorem C10_generic_framing_zero :
    Decode [0x00, 0x00] = Except.ok (DFloat.APD dfloatZero, 2) ∧
    Encode (DFloat.APD dfloatZero) = [0x02] := by
  decide

/-- C4 counterexample: the input 9223372036854775805 named by the claim as a
midpoint that rounds to the even neighbor is within signed-64 range, so
DFloatFromUInt returns it exactly — unrounded, with an odd last digit. -/
theorem C4_midpoint_counterexample :
    DFloatFromUInt 9223372036854775805 = ⟨0, 9223372036854775805⟩ := by
  decide

/-- C4 amended: the half-to-even rounding facts that hold on the code:
0.5935555 at 4 significant digits gives 0.5936 (coefficient 5936, exponent
-4); 14.73445219134543 at 6 gives 14.7345; 9223372036854775808 rounds to
922337203685477581 at exponent 1; the true midpoint 9223372036854775815
rounds to the even neighbor 922337203685477582; 9223372036854775805 is
returned exactly (no rounding, and the code returns no precision-loss
indication on any of these paths). -/
theorem C4_half_to_even_amended :
    decodeFromString "0.5935555".toList 4 = GoResult.ok ⟨-4, 5936⟩ ∧
    decodeFromString "14.73445219134543".toList 6 = GoResult.ok ⟨-4, 147345⟩ ∧
    DFloatFromUInt 9223372036854775808 = ⟨1, 922337203685477581⟩ ∧
    DFloatFromUInt 9223372036854775815 = ⟨1, 922337203685477582⟩ ∧
    DFloatFromUInt 9223372036854775805 = ⟨0, 9223372036854775805⟩ := by
  decide

/-- C7: at the failing input coefficient -1, exponent 0, Int() returns an
error although -1 times 10 to the 0 fits int64 (the result-negative check
rejects every negative value), and Uint() returns the wrapped value
18446744073709551615 with no error although the value is negative. -/
theorem C7_negative_coefficient_bug :
    DFloat.Int ⟨0, -1⟩ = Except.error IntErr.valueTooBig ∧
    DFloat.Uint ⟨0, -1⟩ = Except.ok 18446744073709551615 := by
  decide

/-- C9: at the failing input "-" (a bare sign with no digits) the parser
reads past the end of the buffer — a runtime fault, not a returned error
value; "1e" (empty exponent part) faults the same way. -/
theorem C9_bare_sign_panics :
    decodeFromString "-".toList 0 = GoResult.runtimePanic ∧
    decodeFromString "1e".toList 0 = GoResult.runtimePanic ∧
    DFloatFromString "-" = GoResult.runtimePanic := by
  decide

/-- C6 counterexample: DFloatValue passes a special-sentinel exponent
through minimized unchanged, so DFloatValue(ExpSpecial, 3) is a
special-exponent DFloat whose coefficient 3 is not one of the five
recognized tags; DFloatFromString can produce the same kind of ill-formed
value through int32 exponent wrap-around. -/
theorem C6_illegal_special_counterexample :
    DFloatValue ExpSpecial 3 = ⟨ExpSpecial, 3⟩ ∧
    ¬ (DFloat.wellFormed ⟨ExpSpecial, 3⟩) ∧
    DFloatFromString "1.0e-2147483647" = GoResult.ok ⟨ExpSpecial, 10⟩ ∧
    ¬ (DFloat.wellFormed ⟨ExpSpecial, 10⟩) := by
  decide

/-- C5 counterexample: appending a trailing zero byte to the valid encoding
03 of negative zero changes both the decoded value (negative zero becomes
positive zero through the generic two-varint branch) and the consumed byte
count (1 becomes 2). -/
theorem C5_trailing_zero_counterexample :
    Decode [0x03] = Except.ok (DFloat.APD dfloatNegativeZero, 1) ∧
    Decode [0x03, 0x00] = Except.ok (DFloat.APD dfloatZero, 2) := by
  decide

/-- C8 counterexample: the bit pattern 0x7FF8000000000000 is a NaN whose
top mantissa bit (bit 51) is set, yet DFloatFromFloat64 classifies it as the
signaling NaN, because the code keys on bit 50 (quietBit), not bit 51. -/
theorem C8_top_mantissa_bit_counterexample :
    float64IsNaN 0x7FF8000000000000 = true ∧
    Nat.testBit 0x7FF8000000000000 51 = true ∧
    DFloatFromFloat64Special 0x7FF8000000000000 = some dfloatSignalingNaN := by
  decide


/-- C8 amended: for every IEEE-754 double-precision NaN bit pattern,
DFloatFromFloat64 returns the quiet NaN exactly when bit 50 of the mantissa
(quietBit, the bit below the top mantissa bit) is set and the signaling NaN
when it is clear; Float() returns the NaN patterns 0x7FFC000000000001 and
0x7FF8000000000001, which differ exactly in that same bit 50. -/
theorem C8_quiet_bit_amended :
    (∀ bits : Nat, bits < 2 ^ 64 → float64IsNaN bits = true →
      DFloatFromFloat64Special bits =
        some (if bits.testBit 50 then dfloatNaN else dfloatSignalingNaN)) ∧
    DFloat.FloatBits dfloatNaN = some 0x7FFC000000000001 ∧
    DFloat.FloatBits dfloatSignalingNaN = some 0x7FF8000000000001 := by
  refine ⟨?_, by decide, by decide⟩
  intro bits h64 hnan
  have hprops : bits / 2 ^ 52 % 2 ^ 11 = 0x7ff ∧ bits % 2 ^ 52 ≠ 0 := by
    simpa [float64IsNaN] using hnan
  obtain ⟨hfexp, hman⟩ := hprops
  have h0 : bits ≠ 0 := by
    intro h; rw [h] at hfexp; exact absurd hfexp (by decide)
  have h1 : bits ≠ 0x8000000000000000 := by
    intro h; rw [h] at hfexp; exact absurd hfexp (by decide)
  have h2 : bits ≠ 0x7FF0000000000000 := by
    intro h; rw [h] at hman; exact hman (by decide)
  have h3 : bits ≠ 0xFFF0000000000000 := by
    intro h; rw [h] at hman; exact hman (by decide)
  unfold DFloatFromFloat64Special
  rw [if_neg h0, if_neg h1, if_neg h2, if_neg h3, if_pos hnan]
  have hand : bits &&& quietBit = (bits.testBit 50).toNat * 2 ^ 50 := by
    unfold quietBit
    exact Nat.and_two_pow bits 50
  by_cases ht : bits.testBit 50
  · rw [if_pos (by rw [hand, ht]; decide), if_pos ht]
  · rw [if_neg (by rw [hand]; simp [Bool.eq_false_iff.mpr ht]), if_neg ht]

/-- Witness for C8 amended at Go's own NaN pattern 0x7FF8000000000001 (bit
50 clear, classified signaling). -/
theorem C8_quiet_bit_amended_witness :
    (0x7FF8000000000001 : Nat) < 2 ^ 64 ∧ float64IsNaN 0x7FF8000000000001 = true ∧
    DFloatFromFloat64Special 0x7FF8000000000001 =
      some (if Nat.testBit 0x7FF8000000000001 50 then dfloatNaN else dfloatSignalingNaN) :=
  ⟨by decide, by decide, C8_quiet_bit_amended.1 0x7FF8000000000001 (by decide) (by decide)⟩

/-- C3: the encoding of every normal (finite, nonzero) value is two
consecutive LEB128 fields — first the exponent field, the absolute exponent
shifted left 2 bits OR the exponent sign bit shifted left 1 OR the
coefficient sign bit, then the absolute coefficient; and encoding the value
parsed from "9.445283e+5000" (coefficient 9445283, exponent 4994) produces
exactly the bytes 88 9c 01 a3 bf c0 04. -/
theorem C3_normal_encoding_layout :
    (∀ d : Decimal, d.Form = Form.Finite → d.Coeff ≠ 0 →
      -2 ^ 31 < d.Exponent → d.Exponent < 2 ^ 31 →
      Encode d =
        ulebEncode (4 * d.Exponent.natAbs + (if d.Exponent < 0 then 2 else 0)
            + (if d.Negative then 1 else 0)) ++ ulebEncode d.Coeff) ∧
    decodeFromString "9.445283e+5000".toList 0 = GoResult.ok ⟨4994, 9445283⟩ ∧
    Encode (DFloat.APD ⟨4994, 9445283⟩) = [0x88, 0x9c, 0x01, 0xa3, 0xbf, 0xc0, 0x04] := by
  refine ⟨?_, by decide, by decide⟩
  intro d hf hc h1 h2
  rw [Encode_normal d hf hc, exponentField_eq d.Exponent d.Negative h1 h2]

/-- Witness for C3 at the decimal 9445283e4994. -/
theorem C3_normal_encoding_layout_witness :
    Encode (apdNew 9445283 4994) =
      ulebEncode (4 * (apdNew 9445283 4994).Exponent.natAbs
          + (if (apdNew 9445283 4994).Exponent < 0 then 2 else 0)
          + (if (apdNew 9445283 4994).Negative then 1 else 0))
        ++ ulebEncode (apdNew 9445283 4994).Coeff :=
  C3_normal_encoding_layout.1 (apdNew 9445283 4994) rfl (by decide) (by decide) (by decide)

theorem tdiv_mul_eq_iff (c : Int) : c.tdiv 10 * 10 = c ↔ (10 : ℤ) ∣ c := by
  constructor
  · intro h
    exact ⟨c.tdiv 10, by omega⟩
  · rintro ⟨k, rfl⟩
    rw [Int.mul_tdiv_cancel_left k (by norm_num)]
    ring

theorem wrap32_bounds (x : Int) : -2 ^ 31 ≤ wrap32 x ∧ wrap32 x < 2 ^ 31 := by
  unfold wrap32; omega

theorem minimizedLoop_gen : ∀ (fuel : Nat) (c e : Int), c ≠ 0 → c.natAbs ≤ fuel →
    -2 ^ 31 ≤ e → e < 2 ^ 31 →
    (minimizedLoop fuel c e).1 ≠ 0 ∧
    ¬ (10 : ℤ) ∣ (minimizedLoop fuel c e).1 ∧
    (minimizedLoop fuel c e).1.natAbs ≤ c.natAbs ∧
    (0 < c → 0 < (minimizedLoop fuel c e).1) ∧
    (c < 0 → (minimizedLoop fuel c e).1 < 0) ∧
    -2 ^ 31 ≤ (minimizedLoop fuel c e).2 ∧ (minimizedLoop fuel c e).2 < 2 ^ 31 := by
  intro fuel
  induction fuel with
  | zero => intro c e hc hf _ _; omega
  | succ fuel ih =>
    intro c e hc hf he1 he2
    simp only [minimizedLoop]
    by_cases hdvd : c.tdiv 10 * 10 = c
    · rw [if_pos hdvd]
      have hc' : c.tdiv 10 ≠ 0 := by
        intro h
        rw [h] at hdvd
        simp at hdvd
        exact hc hdvd.symm
      have habs10 : (c.tdiv 10).natAbs * 10 = c.natAbs := by
        have := congrArg Int.natAbs hdvd
        simpa [Int.natAbs_mul] using this
      have habs : (c.tdiv 10).natAbs ≤ fuel := by omega
      have hw := wrap32_bounds (e + 1)
      obtain ⟨g1, g2, g3, g4, g5, g6, g7⟩ := ih (c.tdiv 10) (wrap32 (e + 1)) hc' habs hw.1 hw.2
      refine ⟨g1, g2, by omega, ?_, ?_, g6, g7⟩
      · intro hcp
        exact g4 (by omega)
      · intro hcn
        exact g5 (by omega)
    · rw [if_neg hdvd]
      exact ⟨hc, fun hd => hdvd ((tdiv_mul_eq_iff c).2 hd), Nat.le_refl _,
        fun h => h, fun h => h, he1, he2⟩

theorem minimizedLoop_pos : ∀ (fuel m : Nat) (c e : Int), 0 < c → c.natAbs ≤ fuel →
    c ≤ 2 ^ m → 0 ≤ e → e + m < 2 ^ 31 →
    0 < (minimizedLoop fuel c e).1 ∧
    ¬ (10 : ℤ) ∣ (minimizedLoop fuel c e).1 ∧
    (minimizedLoop fuel c e).1 ≤ c ∧
    e ≤ (minimizedLoop fuel c e).2 ∧ (minimizedLoop fuel c e).2 ≤ e + m := by
  intro fuel
  induction fuel with
  | zero => intro m c e hc hf _ _ _; omega
  | succ fuel ih =>
    intro m c e hc hf hm he hem
    simp only [minimizedLoop]
    by_cases hdvd : c.tdiv 10 * 10 = c
    · rw [if_pos hdvd]
      have h10 : (10 : ℤ) ∣ c := (tdiv_mul_eq_iff c).1 hdvd
      have hc10 : 10 ≤ c := by
        rcases h10 with ⟨k, hk⟩
        omega
      match m with
      | 0 => omega
      | m' + 1 =>
        have hpow : (2 : ℤ) ^ (m' + 1) = 2 ^ m' * 2 := pow_succ 2 m'
        have hc' : 0 < c.tdiv 10 := by omega
        have hcm' : c.tdiv 10 ≤ 2 ^ m' := by omega
        have habs10 : (c.tdiv 10).natAbs * 10 = c.natAbs := by
          have := congrArg Int.natAbs hdvd
          simpa [Int.natAbs_mul] using this
        have habs : (c.tdiv 10).natAbs ≤ fuel := by omega
        have hwrap : wrap32 (e + 1) = e + 1 := wrap32_eq_self (by omega) (by omega)
        rw [hwrap]
        obtain ⟨g1, g2, g3, g4, g5⟩ := ih m' (c.tdiv 10) (e + 1) hc' habs hcm' (by omega) (by omega)
        exact ⟨g1, g2, by omega, by omega, by omega⟩
    · rw [if_neg hdvd]
      exact ⟨hc, fun hd => hdvd ((tdiv_mul_eq_iff c).2 hd), le_refl _, le_refl _, by omega⟩

theorem DFloatValue_pos_wellFormed (e c : Int) (hc : 0 < c) (hc2 : c < 2 ^ 63)
    (he : 0 ≤ e) (hm : e + 63 < 2 ^ 31) : (DFloatValue e c).wellFormed := by
  have hcm : c ≤ 2 ^ 63 := by omega
  have hes : (⟨e, c⟩ : DFloat).Exponent ≠ ExpSpecial := by
    show e ≠ ExpSpecial
    rw [ExpSpecial_eq]
    omega
  have hcz : ¬ (⟨e, c⟩ : DFloat).Coefficient = 0 := by
    show ¬ c = 0
    omega
  unfold DFloatValue DFloat.minimized
  rw [if_neg hes, if_neg hcz]
  obtain ⟨g1, g2, g3, g4, g5⟩ :=
    minimizedLoop_pos c.natAbs 63 c e hc (Nat.le_refl _) hcm he hm
  unfold DFloat.wellFormed
  dsimp only
  refine ⟨by omega, by omega, by omega, by omega, ?_, fun _ => Or.inl g2⟩
  intro hsp
  rw [ExpSpecial_eq] at hsp
  omega

/-- C6 amended: what the construction paths actually guarantee.  DFloatValue
with a non-sentinel exponent whose minimization does not wrap the exponent
to the sentinel returns a well-formed DFloat, and DFloatFromUInt always
returns a well-formed DFloat; the five-tag restriction itself is not
enforced — DFloatValue passes a sentinel exponent through with any
coefficient, and DFloatFromString can wrap the exponent onto the sentinel
(see the counterexample). -/
theorem C6_wellformed_amended :
    (∀ e c : Int, -2 ^ 31 ≤ e → e < 2 ^ 31 → -2 ^ 63 ≤ c → c < 2 ^ 63 →
      e ≠ ExpSpecial → (DFloatValue e c).Exponent ≠ ExpSpecial →
      (DFloatValue e c).wellFormed) ∧
    (∀ v : Nat, v < 2 ^ 64 → (DFloatFromUInt v).wellFormed) := by
  constructor
  · intro e c he1 he2 hc1 hc2 hes hres
    by_cases hc0 : c = 0
    · subst hc0
      have : DFloatValue e 0 = ⟨0, 0⟩ := by
        unfold DFloatValue DFloat.minimized
        rw [if_neg hes, if_pos rfl]
      rw [this]
      decide
    · unfold DFloatValue DFloat.minimized at hres ⊢
      rw [if_neg hes, if_neg hc0] at hres ⊢
      obtain ⟨g1, g2, g3, g4, g5, g6, g7⟩ :=
        minimizedLoop_gen c.natAbs c e hc0 (Nat.le_refl _) he1 he2
      unfold DFloat.wellFormed
      dsimp only at hres ⊢
      refine ⟨by omega, by omega, by omega, by omega, ?_, fun _ => Or.inl g2⟩
      intro hsp
      exact absurd hsp hres
  · intro v hv
    unfold DFloatFromUInt
    by_cases hle : v ≤ 0x7fffffffffffffff
    · rw [if_pos hle]
      by_cases hz : v = 0
      · subst hz
        decide
      · exact DFloatValue_pos_wellFormed 0 v (by omega) (by omega) (by omega) (by omega)
    · rw [if_neg hle]
      dsimp only
      split_ifs with hrem hrem5 hodd
      · exact DFloatValue_pos_wellFormed 1 (v / 10 + 1) (by omega) (by omega) (by omega) (by omega)
      · exact DFloatValue_pos_wellFormed 1 (v / 10) (by omega) (by omega) (by omega) (by omega)
      · exact DFloatValue_pos_wellFormed 1 (v / 10 + 1) (by omega) (by omega) (by omega) (by omega)
      · exact DFloatValue_pos_wellFormed 1 (v / 10) (by omega) (by omega) (by omega) (by omega)

/-- Witness for C6 amended at DFloatValue(0, 120) and
DFloatFromUInt(9223372036854775808). -/
theorem C6_wellformed_amended_witness :
    (DFloatValue 0 120).wellFormed ∧ (DFloatFromUInt 9223372036854775808).wellFormed :=
  ⟨C6_wellformed_amended.1 0 120 (by decide) (by decide) (by decide) (by decide)
      (by decide) (by decide),
    C6_wellformed_amended.2 9223372036854775808 (by decide)⟩

theorem ulebDecode_all_cont : ∀ (l : List Nat), (∀ b ∈ l, 128 ≤ b) →
    ulebDecode l = ((ulebDecode l).1, l.length, false) := by
  intro l
  induction l with
  | nil => intro _; rfl
  | cons b rest ih =>
    intro h
    have hb : 128 ≤ b := h b (List.mem_cons_self b rest)
    have hrest := ih (fun x hx => h x (List.mem_cons_of_mem b hx))
    simp only [ulebDecode, if_neg (by omega : ¬ b < 128), List.length_cons]
    rw [hrest]

theorem decodeGeneric_all_cont (l : List Nat) (h : ∀ b ∈ l, 128 ≤ b)
    (hbound : (ulebDecode l).1 ≤ maxEncodedExponent) :
    decodeGeneric l = Except.error DecodeErr.incomplete := by
  have hdec := ulebDecode_all_cont l h
  have h64 : (ulebDecode l).1 < 2 ^ 64 := by
    unfold maxEncodedExponent at hbound; omega
  unfold decodeGeneric
  rw [hdec]
  rw [if_neg (by omega : ¬ (ulebDecode l).1 ≥ 2 ^ 64),
      if_neg (Nat.not_lt.mpr hbound)]
  dsimp only
  rw [List.drop_length]
  rfl

theorem decodeGeneric_tail_cont (fld : Nat) (hfld : fld ≤ maxEncodedExponent)
    (tail : List Nat) (htail : ∀ b ∈ tail, 128 ≤ b) :
    decodeGeneric (ulebEncode fld ++ tail) = Except.error DecodeErr.incomplete := by
  have h64 : fld < 2 ^ 64 := by
    unfold maxEncodedExponent at hfld; omega
  unfold decodeGeneric
  rw [ulebDecode_encode fld]
  rw [if_neg (by omega : ¬ fld ≥ 2 ^ 64), if_neg (Nat.not_lt.mpr hfld)]
  simp only [List.drop_append_of_le_length (Nat.le_refl _), List.drop_length, List.nil_append]
  rw [ulebDecode_all_cont tail htail]
  rfl

theorem Decode_dispatch (src : List Nat) (hne : src ≠ [])
    (h1 : ∀ b, src = [b] → b ≠ 2 ∧ b ≠ 3)
    (h2 : ∀ b0 b1, src = [b0, b1] → b1 ≠ 0) :
    Decode src = decodeGeneric src := by
  match src with
  | [] => exact absurd rfl hne
  | [b] =>
    have := h1 b rfl
    exact Decode_single_ne b this.1 this.2
  | [b0, b1] => exact Decode_pair_ne b0 b1 (h2 b0 b1 rfl)
  | b0 :: b1 :: b2 :: rest => rfl

theorem ulebEncode_head_pos {n : Nat} (h : 1 ≤ n) :
    ∀ b l, ulebEncode n = b :: l → 1 ≤ b := by
  intro b l hb
  rw [ulebEncode_eq] at hb
  by_cases hn : n < 128
  · rw [if_pos hn] at hb
    simp at hb
    omega
  · rw [if_neg hn] at hb
    simp at hb
    omega
/-- C5 amended: decoding any strict prefix of a valid encoding (including
the empty sequence) reports the incomplete-input condition; appending extra
trailing zero bytes preserves the decoded value and the consumed-byte count
for the two-varint encodings of normal nonzero values, but not for the
one-byte and two-byte special encodings (see the counterexample, where a
trailing zero after 0x03 changes both). -/
theorem C5_truncation_amended :
    (∀ v : DFloat, v.wellFormed → ∀ k, k < (Encode v.APD).length →
      Decode ((Encode v.APD).take k) = Except.error DecodeErr.incomplete) ∧
    (∀ v : DFloat, v.wellFormed → v.Exponent ≠ ExpSpecial → v.Coefficient ≠ 0 →
      ∀ m : Nat, Decode (Encode v.APD ++ List.replicate m 0) =
        Except.ok (v.APD, (Encode v.APD).length)) := by
  constructor
  · intro v h k hk
    obtain ⟨he1, he2, hc1, hc2, hspec, hnorm⟩ := h
    by_cases hs : v.Exponent = ExpSpecial
    · obtain ⟨ve, vc⟩ := v
      simp only at hs hspec
      subst hs
      rcases hspec rfl with h0 | h0 | h0 | h0 | h0 <;> subst h0
      · have hlen : (Encode (DFloat.APD (⟨ExpSpecial, 0⟩ : DFloat))).length = 1 := by decide
        rw [hlen] at hk
        rcases k with _ | _ | k
        · decide
        · omega
        · omega
      · have hlen : (Encode (DFloat.APD (⟨ExpSpecial, 1⟩ : DFloat))).length = 2 := by decide
        rw [hlen] at hk
        rcases k with _ | _ | k
        · decide
        · decide
        · omega
      · have hlen : (Encode (DFloat.APD (⟨ExpSpecial, 2⟩ : DFloat))).length = 2 := by decide
        rw [hlen] at hk
        rcases k with _ | _ | k
        · decide
        · decide
        · omega
      · have hlen : (Encode (DFloat.APD (⟨ExpSpecial, 5⟩ : DFloat))).length = 2 := by decide
        rw [hlen] at hk
        rcases k with _ | _ | k
        · decide
        · decide
        · omega
      · have hlen : (Encode (DFloat.APD (⟨ExpSpecial, 6⟩ : DFloat))).length = 2 := by decide
        rw [hlen] at hk
        rcases k with _ | _ | k
        · decide
        · decide
        · omega
    · have hAPD := DFloat.APD_normal v hs
      by_cases hc0 : v.Coefficient = 0
      · have he0 : v.Exponent = 0 := by
          rcases hnorm hs with hnd | ⟨_, he0⟩
          · exact absurd ⟨0, by omega⟩ hnd
          · exact he0
        obtain ⟨ve, vc⟩ := v
        simp only at hc0 he0
        subst hc0; subst he0
        have hlen : (Encode (DFloat.APD (⟨0, 0⟩ : DFloat))).length = 1 := by decide
        rw [hlen] at hk
        rcases k with _ | _ | k
        · decide
        · omega
        · omega
      · obtain ⟨ve, vc⟩ := v
        simp only at hs hc0 hAPD he1 he2 hc1 hc2
        have hb1 : -2 ^ 31 < ve := by rw [ExpSpecial_eq] at hs; omega
        have hENC : Encode (DFloat.APD ⟨ve, vc⟩) =
            ulebEncode (exponentField ve (decide (vc < 0))) ++ ulebEncode vc.natAbs := by
          rw [hAPD]
          refine Encode_normal _ rfl ?_
          simpa [apdNew] using hc0
        have hcf0 : vc.natAbs ≠ 0 := by simpa using hc0
        have hfld_le := exponentField_le ve (decide (vc < 0)) hb1 he2
        have hne23 := exponentField_ne_2 ve (decide (vc < 0)) hb1 he2
        rw [hENC] at hk ⊢
        rw [List.length_append] at hk
        by_cases hk1 : k < (ulebEncode (exponentField ve (decide (vc < 0)))).length
        · rw [List.take_append_of_le_length (by omega)]
          rcases Nat.eq_zero_or_pos k with rfl | hkpos
          · rw [List.take_zero]
            rfl
          · have hcont := ulebEncode_take_all_cont (exponentField ve (decide (vc < 0))) k hk1
            have hlen_take :
                ((ulebEncode (exponentField ve (decide (vc < 0)))).take k).length = k := by
              rw [List.length_take]
              omega
            obtain ⟨pv, hpvle, hpv⟩ :=
              ulebDecode_take (exponentField ve (decide (vc < 0))) k hk1
            have hh1 : ∀ b, (ulebEncode (exponentField ve (decide (vc < 0)))).take k = [b] →
                b ≠ 2 ∧ b ≠ 3 := by
              intro b hb
              have hmem : b ∈ (ulebEncode (exponentField ve (decide (vc < 0)))).take k := by
                rw [hb]; simp
              have := hcont b hmem
              omega
            have hh2 : ∀ b0 b1,
                (ulebEncode (exponentField ve (decide (vc < 0)))).take k = [b0, b1] →
                b1 ≠ 0 := by
              intro b0 b1 hb
              have hmem : b1 ∈ (ulebEncode (exponentField ve (decide (vc < 0)))).take k := by
                rw [hb]; simp
              have := hcont b1 hmem
              omega
            rw [Decode_dispatch _ (by intro hnil; rw [hnil] at hlen_take; simp at hlen_take; omega)
                hh1 hh2]
            apply decodeGeneric_all_cont _ hcont
            rw [hpv]
            exact le_trans hpvle hfld_le
        · have hj : k - (ulebEncode (exponentField ve (decide (vc < 0)))).length
              < (ulebEncode vc.natAbs).length := by omega
          have htk : (ulebEncode (exponentField ve (decide (vc < 0))) ++ ulebEncode vc.natAbs).take k
              = ulebEncode (exponentField ve (decide (vc < 0)))
                ++ (ulebEncode vc.natAbs).take
                    (k - (ulebEncode (exponentField ve (decide (vc < 0)))).length) := by
            rw [List.take_append_eq_append_take, List.take_of_length_le (by omega)]
          rw [htk]
          have hcont2 := ulebEncode_take_all_cont vc.natAbs _ hj
          have hlen_take2 :
              ((ulebEncode vc.natAbs).take
                (k - (ulebEncode (exponentField ve (decide (vc < 0)))).length)).length
              = k - (ulebEncode (exponentField ve (decide (vc < 0)))).length := by
            rw [List.length_take]
            omega
          have hh1 : ∀ b, (ulebEncode (exponentField ve (decide (vc < 0)))
              ++ (ulebEncode vc.natAbs).take
                  (k - (ulebEncode (exponentField ve (decide (vc < 0)))).length)) = [b] →
              b ≠ 2 ∧ b ≠ 3 := by
            intro b hb
            have hlens := congrArg List.length hb
            rw [List.length_append, hlen_take2] at hlens
            simp at hlens
            have hfl1 : (ulebEncode (exponentField ve (decide (vc < 0)))).length = 1 := by
              have := ulebEncode_length_pos (exponentField ve (decide (vc < 0)))
              omega
            have hfsmall : exponentField ve (decide (vc < 0)) < 128 := by
              by_contra hff
              have := ulebEncode_length_two hff
              omega
            have htnil : (ulebEncode vc.natAbs).take
                (k - (ulebEncode (exponentField ve (decide (vc < 0)))).length) = [] := by
              rw [← List.length_eq_zero, hlen_take2]
              omega
            rw [htnil, List.append_nil, ulebEncode_small hfsmall] at hb
            simp at hb
            rw [← hb]
            exact hne23
          have hh2 : ∀ b0 b1, (ulebEncode (exponentField ve (decide (vc < 0)))
              ++ (ulebEncode vc.natAbs).take
                  (k - (ulebEncode (exponentField ve (decide (vc < 0)))).length)) = [b0, b1] →
              b1 ≠ 0 := by
            intro b0 b1 hb
            have hlens := congrArg List.length hb
            rw [List.length_append, hlen_take2] at hlens
            simp at hlens
            by_cases hfsmall : exponentField ve (decide (vc < 0)) < 128
            · have hfl1 : (ulebEncode (exponentField ve (decide (vc < 0)))).length = 1 := by
                rw [ulebEncode_small hfsmall]
                rfl
              have htone : ((ulebEncode vc.natAbs).take
                  (k - (ulebEncode (exponentField ve (decide (vc < 0)))).length)).length = 1 := by
                rw [hlen_take2]
                omega
              obtain ⟨x, hx⟩ := List.length_eq_one.mp htone
              have hmem : x ∈ (ulebEncode vc.natAbs).take
                  (k - (ulebEncode (exponentField ve (decide (vc < 0)))).length) := by
                rw [hx]; simp
              have hx128 := hcont2 x hmem
              rw [hx, ulebEncode_small hfsmall] at hb
              simp at hb
              omega
            · have h2le := ulebEncode_length_two hfsmall
              have htnil : (ulebEncode vc.natAbs).take
                  (k - (ulebEncode (exponentField ve (decide (vc < 0)))).length) = [] := by
                rw [← List.length_eq_zero, hlen_take2]
                omega
              rw [htnil, List.append_nil] at hb
              have hfl2 : (ulebEncode (exponentField ve (decide (vc < 0)))).length = 2 := by
                rw [hb]
                rfl
              have hu1 := ulebEncode_large hfsmall
              rw [hu1] at hfl2
              simp at hfl2
              obtain ⟨b', hb'⟩ := List.length_eq_one.mp hfl2
              have hbpos : 1 ≤ b' := by
                apply ulebEncode_head_pos ?_ b' [] hb'
                have hge : 128 ≤ exponentField ve (decide (vc < 0)) := by omega
                omega
              rw [hu1, hb'] at hb
              simp at hb
              omega
          rw [Decode_dispatch _ ?_ hh1 hh2]
          · exact decodeGeneric_tail_cont _ hfld_le _ hcont2
          · intro hnil
            have hl := congrArg List.length hnil
            rw [List.length_append] at hl
            have hp := ulebEncode_length_pos (exponentField ve (decide (vc < 0)))
            simp only [List.length_nil] at hl
            omega
  · intro v h hs hc0 m
    obtain ⟨he1, he2, hc1, hc2, hspec, hnorm⟩ := h
    have hAPD := DFloat.APD_normal v hs
    obtain ⟨ve, vc⟩ := v
    simp only at hs hc0 hAPD he1 he2 hc1 hc2
    have hb1 : -2 ^ 31 < ve := by rw [ExpSpecial_eq] at hs; omega
    have hENC : Encode (DFloat.APD ⟨ve, vc⟩) =
        ulebEncode (exponentField ve (decide (vc < 0))) ++ ulebEncode vc.natAbs := by
      rw [hAPD]
      refine Encode_normal _ rfl ?_
      simpa [apdNew] using hc0
    have hcf0 : vc.natAbs ≠ 0 := by simpa using hc0
    have hfld_le := exponentField_le ve (decide (vc < 0)) hb1 he2
    rw [hENC, hAPD, List.append_assoc]
    have hh1 : ∀ b, (ulebEncode (exponentField ve (decide (vc < 0)))
        ++ (ulebEncode vc.natAbs ++ List.replicate m 0)) = [b] → b ≠ 2 ∧ b ≠ 3 := by
      intro b hb
      have hlens := congrArg List.length hb
      simp [List.length_append] at hlens
      have := ulebEncode_length_pos (exponentField ve (decide (vc < 0)))
      have := ulebEncode_length_pos vc.natAbs
      omega
    have hh2 : ∀ b0 b1, (ulebEncode (exponentField ve (decide (vc < 0)))
        ++ (ulebEncode vc.natAbs ++ List.replicate m 0)) = [b0, b1] → b1 ≠ 0 := by
      intro b0 b1 hb
      have hlens := congrArg List.length hb
      simp [List.length_append] at hlens
      have hp1 := ulebEncode_length_pos (exponentField ve (decide (vc < 0)))
      have hp2 := ulebEncode_length_pos vc.natAbs
      have hfl1 : (ulebEncode (exponentField ve (decide (vc < 0)))).length = 1 := by omega
      have hfl2 : (ulebEncode vc.natAbs).length = 1 := by omega
      have hm0 : m = 0 := by omega
      have hfsmall : exponentField ve (decide (vc < 0)) < 128 := by
        by_contra hff
        have := ulebEncode_length_two hff
        omega
      have hcsmall : vc.natAbs < 128 := by
        by_contra hff
        have := ulebEncode_length_two hff
        omega
      subst hm0
      rw [ulebEncode_small hfsmall, ulebEncode_small hcsmall] at hb
      simp at hb
      omega
    rw [Decode_dispatch _ ?_ hh1 hh2]
    · rw [decodeGeneric_encodes (exponentField ve (decide (vc < 0))) vc.natAbs hfld_le
          (List.replicate m 0)]
      have hm2 := exponentField_mod2 ve (decide (vc < 0)) hb1 he2
      have hd2 := exponentField_div2 ve (decide (vc < 0)) hb1 he2
      have hd4 := exponentField_div4 ve (decide (vc < 0)) hb1 he2
      simp only [Except.ok.injEq, Prod.mk.injEq, List.length_append]
      exact ⟨decodedValue_eq _ vc ve (by simpa using hm2) hd2 hd4 hc1 hc2, by omega⟩
    · intro hnil
      have hl := congrArg List.length hnil
      rw [List.length_append] at hl
      have hp := ulebEncode_length_pos (exponentField ve (decide (vc < 0)))
      simp only [List.length_nil] at hl
      omega

/-- Witness for C5 amended at the DFloat 1.5, truncating one byte and
appending one zero byte. -/
theorem C5_truncation_amended_witness :
    DFloat.wellFormed ⟨-1, 15⟩ ∧
    1 < (Encode (DFloat.APD ⟨-1, 15⟩)).length ∧
    Decode ((Encode (DFloat.APD ⟨-1, 15⟩)).take 1) = Except.error DecodeErr.incomplete ∧
    Decode (Encode (DFloat.APD ⟨-1, 15⟩) ++ List.replicate 1 0) =
      Except.ok (DFloat.APD ⟨-1, 15⟩, (Encode (DFloat.APD ⟨-1, 15⟩)).length) :=
  ⟨by decide, by decide,
    C5_truncation_amended.1 ⟨-1, 15⟩ (by decide) 1 (by decide),
    C5_truncation_amended.2 ⟨-1, 15⟩ (by decide) (by decide) (by decide) 1⟩

end CompactFloat
